import Mathlib

/-!
Verification of the core numerical routines of `src/Macro/Imrohoroglu1989.ipynb`
(value-function iteration and stationary-distribution solver for the
Imrohoroglu (1989) business-cycle model).

Modelling conventions:
* NumPy float64 arithmetic is embedded as exact rational arithmetic (`ℚ`);
  every claim checked here concerns exact values, branch structure or
  index bookkeeping, not rounding.
* Arrays of shape `Na × Ns` are functions `Fin Na → Fin Ns → ℚ`.
* The float power `c ** e` is embedded by `fpow`, which is exact on the
  cases where the development evaluates it (positive base, integer
  exponent); see `fpow`'s doc comment.
-/

/-- Semantics of `np.max` on a 1-d array (maximum of the entries;
the value on the empty array is irrelevant to the development). -/
def npmax : List ℚ → ℚ
  | [] => 0
  | [x] => x
  | x :: y :: t => max x (npmax (y :: t))

/-- Semantics of `np.argmax` on a 1-d array: the index of the first
occurrence of the maximum value (NumPy documented behaviour: "In case of
multiple occurrences of the maximum values, the indices corresponding to
the first occurrence are returned"). -/
def npargmax : List ℚ → ℕ
  | [] => 0
  | [_] => 0
  | x :: y :: t => if npmax (y :: t) ≤ x then 0 else npargmax (y :: t) + 1

lemma npmax_cons_cons (x y : ℚ) (t : List ℚ) :
    npmax (x :: y :: t) = max x (npmax (y :: t)) := rfl

lemma npargmax_cons_cons (x y : ℚ) (t : List ℚ) :
    npargmax (x :: y :: t) =
      if npmax (y :: t) ≤ x then 0 else npargmax (y :: t) + 1 := rfl

lemma le_npmax (l : List ℚ) (x : ℚ) (hx : x ∈ l) : x ≤ npmax l := by
  induction l with
  | nil => cases hx
  | cons a t ih =>
    cases t with
    | nil =>
      rcases List.mem_cons.mp hx with h | h
      · simp [npmax, h]
      · cases h
    | cons b t' =>
      rw [npmax_cons_cons]
      rcases List.mem_cons.mp hx with h | h
      · exact h ▸ le_max_left _ _
      · exact le_trans (ih h) (le_max_right _ _)

lemma npmax_mem (l : List ℚ) (hl : l ≠ []) : npmax l ∈ l := by
  induction l with
  | nil => exact absurd rfl hl
  | cons a t ih =>
    cases t with
    | nil => simp [npmax]
    | cons b t' =>
      rw [npmax_cons_cons]
      rcases le_total (npmax (b :: t')) a with h | h
      · simp [max_eq_left h]
      · rw [max_eq_right h]
        exact List.mem_cons_of_mem _ (ih (by simp))

lemma npargmax_lt_length (l : List ℚ) (hl : l ≠ []) :
    npargmax l < l.length := by
  induction l with
  | nil => exact absurd rfl hl
  | cons a t ih =>
    cases t with
    | nil => simp [npargmax]
    | cons b t' =>
      rw [npargmax_cons_cons]
      by_cases h : npmax (b :: t') ≤ a
      · simp [h]
      · rw [if_neg h]
        have := ih (by simp)
        simpa using Nat.succ_lt_succ this

lemma getD_npargmax (l : List ℚ) (hl : l ≠ []) :
    l.getD (npargmax l) 0 = npmax l := by
  induction l with
  | nil => exact absurd rfl hl
  | cons a t ih =>
    cases t with
    | nil => simp [npargmax, npmax]
    | cons b t' =>
      rw [npargmax_cons_cons, npmax_cons_cons]
      by_cases h : npmax (b :: t') ≤ a
      · simp [h, max_eq_left h]
      · rw [if_neg h, max_eq_right (le_of_not_le h)]
        simpa using ih (by simp)

lemma getD_lt_of_lt_npargmax (l : List ℚ) (j : ℕ) (hj : j < npargmax l) :
    l.getD j 0 < npmax l := by
  induction l generalizing j with
  | nil => simp [npargmax] at hj
  | cons a t ih =>
    cases t with
    | nil => simp [npargmax] at hj
    | cons b t' =>
      rw [npargmax_cons_cons] at hj
      by_cases h : npmax (b :: t') ≤ a
      · rw [if_pos h] at hj; cases hj
      · rw [if_neg h] at hj
        rw [npmax_cons_cons, max_eq_right (le_of_not_le h)]
        cases j with
        | zero => simpa using lt_of_not_le h
        | succ j' =>
          have := ih j' (Nat.lt_of_succ_lt_succ hj)
          simpa using this

/-!
## Grid & Process Model (`BusinessCycleModel.__init__`)
-/

/-- The data held by a constructed `BusinessCycleModel` instance
(the fields assigned by `__init__`). -/
structure BusinessCycleModel where
  period : ℚ
  beta : ℚ
  periods_in_a_year : ℚ
  r_save : ℚ
  r_borrow : ℚ
  y : ℚ
  theta : ℚ
  sigma : ℚ
  a_max : ℚ
  a_min : ℚ
  Na : ℕ
  Ns : ℕ
  P : Fin Ns → Fin Ns → ℚ
  s_vals : Fin Ns → ℚ
  a_vals : Fin Na → ℚ
  y_vals : Fin Ns → ℚ

/-- The hard-coded 4-state transition matrix (business-cycle variant). -/
def P4 : Fin 4 → Fin 4 → ℚ :=
  ![![0.9141, 0.0234, 0.0587, 0.0038],
    ![0.5625, 0.3750, 0.0269, 0.0356],
    ![0.0608, 0.0016, 0.8813, 0.0563],
    ![0.0375, 0.0250, 0.4031, 0.5344]]

/-- The hard-coded 2-state transition matrix (no business cycle). -/
def P2 : Fin 2 → Fin 2 → ℚ :=
  ![![0.9565, 0.0435],
    ![0.5000, 0.5000]]

/-- Semantics of `np.linspace(a_min, a_max, Na)[i]`:
`a_min + i * (a_max - a_min) / (Na - 1)`.  For `Na = 1` the division is
by zero, which in `ℚ` yields `0`, so every point equals `a_min` — this
matches `np.linspace(a_min, a_max, 1) = [a_min]`. -/
def linspace (a_min a_max : ℚ) (Na : ℕ) : Fin Na → ℚ :=
  fun i => a_min + (i : ℚ) * (a_max - a_min) / ((Na : ℚ) - 1)

/-- The income-by-state list `[y, theta] * int(Ns/2)` built by `__init__`. -/
def yList (y theta : ℚ) (Ns : ℕ) : List ℚ :=
  (List.replicate (Ns / 2) [y, theta]).flatten

/-- Shallow embedding of `BusinessCycleModel.__init__`.  The Python
constructor performs no validation whatsoever: it stores the parameters,
selects one of the two hard-coded transition matrices according to the
`business_cycle` flag, and builds `s_vals`, `a_vals`, `y_vals`.  It is a
total function of its arguments. -/
def BusinessCycleModel.init (period r_save r_borrow y theta beta sigma : ℚ)
    (business_cycle : Bool) (a_max a_min : ℚ) (Na : ℕ) : BusinessCycleModel :=
  if business_cycle then
    { period := period, beta := beta, periods_in_a_year := 52 / period
      r_save := r_save, r_borrow := r_borrow, y := y, theta := theta
      sigma := sigma, a_max := a_max, a_min := a_min, Na := Na
      Ns := 4, P := P4
      s_vals := fun i => (i : ℚ)
      a_vals := linspace a_min a_max Na
      y_vals := fun i => (yList y theta 4).getD i 0 }
  else
    { period := period, beta := beta, periods_in_a_year := 52 / period
      r_save := r_save, r_borrow := r_borrow, y := y, theta := theta
      sigma := sigma, a_max := a_max, a_min := a_min, Na := Na
      Ns := 2, P := P2
      s_vals := fun i => (i : ℚ)
      a_vals := linspace a_min a_max Na
      y_vals := fun i => (yList y theta 2).getD i 0 }

/-!
## Utility Tabulator (`util`)
-/

/-- Embedding of the float power `c ** e`.  When the exponent is an
integer (`e.den = 1`) it is the exact integer power `c ^ e.num`, which
agrees with the real power for every positive base `c`; every concrete
evaluation in this development has a positive base and integer exponent.
For non-integer exponents the real power is irrational in general and
the (unused) value here is `0`. -/
def fpow (c e : ℚ) : ℚ :=
  if e.den = 1 then c ^ e.num else 0

/-- Shallow embedding of the tabulated indirect utility `util` from
`operator_factory`: for every `(a0, s, a1)`, consumption is
`c = a_vals[a0] + y_vals[s] - a_vals[a1] / (1 + r_save)`; if `c < 0` the
entry is the sentinel `-1e6`, otherwise the CRRA utility
`c ** (1 - sigma) / (1 - sigma)`. -/
def util (bcm : BusinessCycleModel) : Fin bcm.Na → Fin bcm.Ns → Fin bcm.Na → ℚ :=
  fun a0 s a1 =>
    let c := bcm.a_vals a0 + bcm.y_vals s - bcm.a_vals a1 / (1 + bcm.r_save)
    if c < 0 then -1000000 else fpow c (1 - bcm.sigma) / (1 - bcm.sigma)

/-!
## Bellman Operator (`T`)
-/

/-- Shallow embedding of the Bellman operator `T` from
`operator_factory`: for each `(a0, s)` it forms the candidate array
`v_vals[a1] = u[a0,s,a1] + beta * P[s] @ v[a1,:]`, and returns
`v_new[a0,s] = np.max(v_vals)` together with
`policy[a0,s] = np.argmax(v_vals)` (a float-valued array, as in the
source, where `policy` is allocated by `np.zeros_like(v)`). -/
def T (Na Ns : ℕ) (beta : ℚ) (P : Fin Ns → Fin Ns → ℚ)
    (v : Fin Na → Fin Ns → ℚ) (u : Fin Na → Fin Ns → Fin Na → ℚ) :
    (Fin Na → Fin Ns → ℚ) × (Fin Na → Fin Ns → ℚ) :=
  (fun a0 s =>
      npmax ((List.finRange Na).map fun a1 =>
        u a0 s a1 + beta * ∑ s1, P s s1 * v a1 s1),
   fun a0 s =>
      (npargmax ((List.finRange Na).map fun a1 =>
        u a0 s a1 + beta * ∑ s1, P s s1 * v a1 s1) : ℚ))

lemma getD_map_finRange (Na : ℕ) (f : Fin Na → ℚ) (j : ℕ) (hj : j < Na) :
    ((List.finRange Na).map f).getD j 0 = f ⟨j, hj⟩ := by
  rw [List.getD_eq_getElem _ _ (by simpa using hj)]
  simp

/-- C1: one application of the Bellman operator gives, at every `(a0, s)`,
`v_new[a0,s]` equal to the maximum over all next-asset indices `a1` of
`u[a0,s,a1] + beta * Σ_{s1} P[s,s1] * v[a1,s1]`, and `policy[a0,s]` equal
to the index attaining that maximum, ties broken by the lowest index
(every strictly smaller index has a strictly smaller candidate value). -/
theorem bellman_operator_spec (Na Ns : ℕ) (beta : ℚ) (P : Fin Ns → Fin Ns → ℚ)
    (v : Fin Na → Fin Ns → ℚ) (u : Fin Na → Fin Ns → Fin Na → ℚ)
    (a0 : Fin Na) (s : Fin Ns) :
    (∀ a1 : Fin Na,
        u a0 s a1 + beta * ∑ s1, P s s1 * v a1 s1 ≤ (T Na Ns beta P v u).1 a0 s) ∧
    (∃ a1 : Fin Na,
        u a0 s a1 + beta * ∑ s1, P s s1 * v a1 s1 = (T Na Ns beta P v u).1 a0 s) ∧
    (∃ k : Fin Na,
        (T Na Ns beta P v u).2 a0 s = (k : ℚ) ∧
        u a0 s k + beta * ∑ s1, P s s1 * v k s1 = (T Na Ns beta P v u).1 a0 s ∧
        ∀ j : Fin Na, j < k →
          u a0 s j + beta * ∑ s1, P s s1 * v j s1 < (T Na Ns beta P v u).1 a0 s) := by
  have hNa : 0 < Na := a0.pos
  set cand : Fin Na → ℚ := fun a1 => u a0 s a1 + beta * ∑ s1, P s s1 * v a1 s1 with hc
  set l : List ℚ := (List.finRange Na).map cand with hl
  have hlen : l.length = Na := by simp [hl]
  have hne : l ≠ [] := by
    intro h
    rw [h] at hlen
    simp at hlen
    omega
  have hfst : (T Na Ns beta P v u).1 a0 s = npmax l := rfl
  refine ⟨?_, ?_, ?_⟩
  · intro a1
    have hm : cand a1 ∈ l := by
      rw [hl]
      exact List.mem_map_of_mem cand (List.mem_finRange a1)
    exact hfst ▸ le_npmax l (cand a1) hm
  · have hm : npmax l ∈ l := npmax_mem l hne
    rw [hl] at hm
    rcases List.mem_map.mp hm with ⟨a1, _, ha1⟩
    exact ⟨a1, ha1⟩
  · have hk0 : npargmax l < Na := hlen ▸ npargmax_lt_length l hne
    refine ⟨⟨npargmax l, hk0⟩, rfl, ?_, ?_⟩
    · have := getD_npargmax l hne
      rw [hl, getD_map_finRange Na cand (npargmax l) hk0] at this
      rw [hfst]
      exact this
    · intro j hj
      have hjlt : (j : ℕ) < npargmax l := hj
      have := getD_lt_of_lt_npargmax l j hjlt
      rw [hl, getD_map_finRange Na cand j j.isLt] at this
      rw [hfst]
      exact this

/-!
## Value Iteration Driver (`solve_model`)
-/

/-- `np.max(np.abs(v - w))`: the sup-norm distance between two
`Na × Ns` arrays. -/
def supErr (Na Ns : ℕ) (v w : Fin Na → Fin Ns → ℚ) : ℚ :=
  npmax ((List.finRange Na).flatMap fun a =>
    (List.finRange Ns).map fun s => |v a s - w a s|)

/-- Semantics of NumPy `astype(int)` on a float entry: truncation
toward zero. -/
def astypeInt (q : ℚ) : ℤ :=
  if 0 ≤ q then ⌊q⌋ else ⌈q⌉

/-- The mutable state of the `while` loop in `solve_model`: the
iteration counter `i`, the current `error`, the current value array `v`,
and the `policy` variable (`none` before the first loop iteration has
assigned it — reading it then would be a Python `NameError`). -/
structure LoopState (Na Ns : ℕ) where
  i : ℕ
  error : ℚ
  v : Fin Na → Fin Ns → ℚ
  policy : Option (Fin Na → Fin Ns → ℚ)

/-- The `while i < max_iter and error > tol` loop of `solve_model`,
fuelled by `max_iter - i` (so `fuel > 0` is exactly `i < max_iter` for
the initial call).  Each pass applies the Bellman step, recomputes the
sup-norm error, increments `i` and replaces `v` and `policy`. -/
def vfiLoop (Na Ns : ℕ)
    (step : (Fin Na → Fin Ns → ℚ) → (Fin Na → Fin Ns → ℚ) × (Fin Na → Fin Ns → ℚ))
    (tol : ℚ) : ℕ → LoopState Na Ns → LoopState Na Ns
  | 0, st => st
  | fuel + 1, st =>
    if tol < st.error then
      vfiLoop Na Ns step tol fuel
        ⟨st.i + 1, supErr Na Ns st.v (step st.v).1, (step st.v).1, some (step st.v).2⟩
    else st

/-- What `solve_model` returns, together with the diagnostics that
determine its reporting branch: the final value array, the returned
policy (`Sum.inl`: the raw float array when the iteration cap was
reached; `Sum.inr`: the `astype(int)` conversion when it converged;
`none` if no loop iteration ever assigned it), the final iteration
count and the final error. -/
structure VFIResult (Na Ns : ℕ) where
  v : Fin Na → Fin Ns → ℚ
  policy : Option ((Fin Na → Fin Ns → ℚ) ⊕ (Fin Na → Fin Ns → ℤ))
  iters : ℕ
  error : ℚ

/-- Shallow embedding of `solve_model`: tabulate `u = util()`, start
from `i = 0`, `error = 1e3`, `v = np.zeros([Na, Ns])`, run the loop,
and convert `policy` with `astype(int)` exactly when `i < max_iter`. -/
def solve_model (bcm : BusinessCycleModel) (tol : ℚ) (max_iter : ℕ) :
    VFIResult bcm.Na bcm.Ns :=
  let u := util bcm
  let step := fun v => T bcm.Na bcm.Ns bcm.beta bcm.P v u
  let st := vfiLoop bcm.Na bcm.Ns step tol max_iter ⟨0, 1000, fun _ _ => 0, none⟩
  { v := st.v
    policy :=
      if st.i < max_iter then
        st.policy.map fun p => Sum.inr fun a s => astypeInt (p a s)
      else
        st.policy.map Sum.inl
    iters := st.i
    error := st.error }

/-- The `CONVERGED` reporting branch of `solve_model`: the driver prints
"Converged" (rather than "Failed to converge!") exactly when the loop
exits with `i < max_iter`. -/
def converged {Na Ns : ℕ} (max_iter : ℕ) (r : VFIResult Na Ns) : Prop :=
  r.iters < max_iter

lemma vfiLoop_i_le (Na Ns step tol) (fuel : ℕ) (st : LoopState Na Ns) :
    (vfiLoop Na Ns step tol fuel st).i ≤ st.i + fuel := by
  induction fuel generalizing st with
  | zero => simp [vfiLoop]
  | succ fuel ih =>
    rw [vfiLoop]
    by_cases h : tol < st.error
    · rw [if_pos h]
      have := ih ⟨st.i + 1, supErr Na Ns st.v (step st.v).1, (step st.v).1,
        some (step st.v).2⟩
      have hi : (⟨st.i + 1, supErr Na Ns st.v (step st.v).1, (step st.v).1,
        some (step st.v).2⟩ : LoopState Na Ns).i = st.i + 1 := rfl
      omega
    · rw [if_neg h]
      omega

lemma vfiLoop_exit (Na Ns step tol) (fuel : ℕ) (st : LoopState Na Ns) :
    (vfiLoop Na Ns step tol fuel st).i = st.i + fuel ∨
      (vfiLoop Na Ns step tol fuel st).error ≤ tol := by
  induction fuel generalizing st with
  | zero => left; simp [vfiLoop]
  | succ fuel ih =>
    rw [vfiLoop]
    by_cases h : tol < st.error
    · rw [if_pos h]
      rcases ih ⟨st.i + 1, supErr Na Ns st.v (step st.v).1, (step st.v).1,
        some (step st.v).2⟩ with h' | h'
      · left
        rw [h']
        have hi : (⟨st.i + 1, supErr Na Ns st.v (step st.v).1, (step st.v).1,
          some (step st.v).2⟩ : LoopState Na Ns).i = st.i + 1 := rfl
        omega
      · right; exact h'
    · rw [if_neg h]
      right; exact le_of_not_lt h

/-- Invariant: once the loop state records the output of a genuine
Bellman step (value, policy and error all produced by `step` at some
previous `v`), every further loop iterate does too. -/
def stepForm (Na Ns : ℕ)
    (step : (Fin Na → Fin Ns → ℚ) → (Fin Na → Fin Ns → ℚ) × (Fin Na → Fin Ns → ℚ))
    (st : LoopState Na Ns) : Prop :=
  ∃ w, st.error = supErr Na Ns w (step w).1 ∧ st.v = (step w).1 ∧
    st.policy = some (step w).2

lemma vfiLoop_stepForm (Na Ns step tol) (fuel : ℕ) (st : LoopState Na Ns)
    (h : stepForm Na Ns step st) :
    stepForm Na Ns step (vfiLoop Na Ns step tol fuel st) := by
  induction fuel generalizing st with
  | zero => simpa [vfiLoop] using h
  | succ fuel ih =>
    rw [vfiLoop]
    by_cases hc : tol < st.error
    · rw [if_pos hc]
      exact ih _ ⟨st.v, rfl, rfl, rfl⟩
    · rwa [if_neg hc]

lemma vfiLoop_stepForm_of_pos (Na Ns step tol) (fuel : ℕ) (st : LoopState Na Ns)
    (hfuel : 1 ≤ fuel) (htol : tol < st.error) :
    stepForm Na Ns step (vfiLoop Na Ns step tol fuel st) := by
  cases fuel with
  | zero => omega
  | succ fuel =>
    rw [vfiLoop, if_pos htol]
    exact vfiLoop_stepForm Na Ns step tol fuel _ ⟨st.v, rfl, rfl, rfl⟩

/-- The loop state `solve_model` ends in (before its reporting and
`astype` step). -/
def vfiState (bcm : BusinessCycleModel) (tol : ℚ) (max_iter : ℕ) :
    LoopState bcm.Na bcm.Ns :=
  vfiLoop bcm.Na bcm.Ns (fun v => T bcm.Na bcm.Ns bcm.beta bcm.P v (util bcm))
    tol max_iter ⟨0, 1000, fun _ _ => 0, none⟩

lemma solve_model_iters (bcm : BusinessCycleModel) (tol : ℚ) (max_iter : ℕ) :
    (solve_model bcm tol max_iter).iters = (vfiState bcm tol max_iter).i := rfl

lemma solve_model_error (bcm : BusinessCycleModel) (tol : ℚ) (max_iter : ℕ) :
    (solve_model bcm tol max_iter).error = (vfiState bcm tol max_iter).error := rfl

lemma solve_model_v (bcm : BusinessCycleModel) (tol : ℚ) (max_iter : ℕ) :
    (solve_model bcm tol max_iter).v = (vfiState bcm tol max_iter).v := rfl

lemma solve_model_policy (bcm : BusinessCycleModel) (tol : ℚ) (max_iter : ℕ) :
    (solve_model bcm tol max_iter).policy =
      if (vfiState bcm tol max_iter).i < max_iter then
        (vfiState bcm tol max_iter).policy.map fun p =>
          Sum.inr fun a s => astypeInt (p a s)
      else
        (vfiState bcm tol max_iter).policy.map Sum.inl := rfl

lemma vfiState_i_le (bcm : BusinessCycleModel) (tol : ℚ) (max_iter : ℕ) :
    (vfiState bcm tol max_iter).i ≤ max_iter := by
  have := vfiLoop_i_le bcm.Na bcm.Ns
    (fun v => T bcm.Na bcm.Ns bcm.beta bcm.P v (util bcm)) tol max_iter
    ⟨0, 1000, fun _ _ => 0, none⟩
  simpa [vfiState] using this

lemma vfiState_exit (bcm : BusinessCycleModel) (tol : ℚ) (max_iter : ℕ) :
    (vfiState bcm tol max_iter).i = max_iter ∨
      (vfiState bcm tol max_iter).error ≤ tol := by
  have := vfiLoop_exit bcm.Na bcm.Ns
    (fun v => T bcm.Na bcm.Ns bcm.beta bcm.P v (util bcm)) tol max_iter
    ⟨0, 1000, fun _ _ => 0, none⟩
  simpa [vfiState] using this

lemma vfiState_stepForm (bcm : BusinessCycleModel) (tol : ℚ) (max_iter : ℕ)
    (h1 : 1 ≤ max_iter) (h2 : tol < 1000) :
    stepForm bcm.Na bcm.Ns (fun v => T bcm.Na bcm.Ns bcm.beta bcm.P v (util bcm))
      (vfiState bcm tol max_iter) := by
  exact vfiLoop_stepForm_of_pos bcm.Na bcm.Ns
    (fun v => T bcm.Na bcm.Ns bcm.beta bcm.P v (util bcm)) tol max_iter
    ⟨0, 1000, fun _ _ => 0, none⟩ h1 h2

/-- C5 (amended): the driver reports `CONVERGED` exactly when the final
sup-norm error is `≤ tol` AND the loop exits at an iteration count
strictly below the cap; when the cap is reached, it does not crash but
returns the value array and the raw policy it has, flagged as
unconverged — even if the final error happens to already meet the
tolerance. -/
theorem solve_model_status_spec (bcm : BusinessCycleModel) (tol : ℚ) (max_iter : ℕ)
    (h1 : 1 ≤ max_iter) (h2 : tol < 1000) :
    (converged max_iter (solve_model bcm tol max_iter) ↔
      (solve_model bcm tol max_iter).error ≤ tol ∧
        (solve_model bcm tol max_iter).iters < max_iter) ∧
    (¬ converged max_iter (solve_model bcm tol max_iter) →
      (solve_model bcm tol max_iter).iters = max_iter ∧
        ∃ p, (solve_model bcm tol max_iter).policy = some (Sum.inl p)) := by
  constructor
  · constructor
    · intro hc
      have hlt : (vfiState bcm tol max_iter).i < max_iter := hc
      rcases vfiState_exit bcm tol max_iter with h | h
      · omega
      · exact ⟨by rwa [solve_model_error], hc⟩
    · intro h
      exact h.2
  · intro hnc
    have hle := vfiState_i_le bcm tol max_iter
    have heq : (vfiState bcm tol max_iter).i = max_iter := by
      have : ¬ (vfiState bcm tol max_iter).i < max_iter := hnc
      omega
    refine ⟨by rw [solve_model_iters]; exact heq, ?_⟩
    rcases vfiState_stepForm bcm tol max_iter h1 h2 with ⟨w, _, _, hp⟩
    refine ⟨(T bcm.Na bcm.Ns bcm.beta bcm.P w (util bcm)).2, ?_⟩
    have hnlt : ¬ (vfiState bcm tol max_iter).i < max_iter := by omega
    rw [solve_model_policy, if_neg hnlt, hp]
    rfl

/-- The degenerate configuration used for concrete counterexamples:
no business cycle (2 states), `beta = 0`, `sigma = 2`, `r_save = 0`,
incomes `y = theta = 1e-7`, asset grid `linspace(0, 4e-7, 2)`.  All
float computations it triggers are exact in `ℚ` (`sigma = 2` makes the
CRRA power the integer power `c ^ (-1)`, and every consumption value
evaluated on the feasible branch is positive). -/
def bcmDeg : BusinessCycleModel :=
  BusinessCycleModel.init 6 0 (2/25) (1/10000000) (1/10000000) 0 2 false
    (4/10000000) 0 2

/-- Closed witness for `solve_model_status_spec` at a concrete input. -/
theorem solve_model_status_spec_witness :
    (converged 1 (solve_model bcmDeg (1/10000000) 1) ↔
      (solve_model bcmDeg (1/10000000) 1).error ≤ 1/10000000 ∧
        (solve_model bcmDeg (1/10000000) 1).iters < 1) ∧
    (¬ converged 1 (solve_model bcmDeg (1/10000000) 1) →
      (solve_model bcmDeg (1/10000000) 1).iters = 1 ∧
        ∃ p, (solve_model bcmDeg (1/10000000) 1).policy = some (Sum.inl p)) :=
  solve_model_status_spec bcmDeg (1/10000000) 1 (by norm_num) (by norm_num)

lemma vfiLoop_not_gt (Na Ns step tol) (fuel : ℕ) (st : LoopState Na Ns)
    (h : ¬ tol < st.error) : vfiLoop Na Ns step tol fuel st = st := by
  cases fuel with
  | zero => rfl
  | succ fuel => rw [vfiLoop, if_neg h]

lemma npmax_pair (x y : ℚ) : npmax [x, y] = max x y := by simp [npmax]

lemma npargmax_pair (x y : ℚ) : npargmax [x, y] = if y ≤ x then 0 else 1 := by
  simp [npargmax, npmax]

lemma fpow_neg_one (c : ℚ) : fpow c (-1) = c⁻¹ := by
  have h1 : ((-1 : ℚ)).den = 1 := rfl
  have h2 : ((-1 : ℚ)).num = -1 := rfl
  rw [fpow, if_pos h1, h2, zpow_neg_one]

lemma bcmDeg_Na : bcmDeg.Na = 2 := rfl

lemma bcmDeg_Ns : bcmDeg.Ns = 2 := rfl

lemma bcmDeg_beta : bcmDeg.beta = 0 := rfl

lemma bcmDeg_sigma : bcmDeg.sigma = 2 := rfl

lemma bcmDeg_r_save : bcmDeg.r_save = 0 := rfl

lemma bcmDeg_a_vals (i : Fin bcmDeg.Na) :
    bcmDeg.a_vals i = (i : ℚ) * (4/10000000) := by
  show linspace 0 (4/10000000) 2 i = (i : ℚ) * (4/10000000)
  unfold linspace
  norm_num

lemma yList_two (y theta : ℚ) : yList y theta 2 = [y, theta] := rfl

lemma bcmDeg_y_vals (s : Fin bcmDeg.Ns) : bcmDeg.y_vals s = 1/10000000 := by
  show (yList (1/10000000) (1/10000000) 2).getD (s : ℕ) 0 = 1/10000000
  rw [yList_two]
  rcases s with ⟨n, hn⟩
  have h2 : n < 2 := hn
  interval_cases n <;> rfl

/-- The utility table of the degenerate model, evaluated entrywise. -/
lemma utilDeg_eval (a0 : Fin bcmDeg.Na) (s : Fin bcmDeg.Ns) (a1 : Fin bcmDeg.Na) :
    util bcmDeg a0 s a1 =
      if (a1 : ℕ) = 0 then (if (a0 : ℕ) = 0 then -10000000 else -2000000)
      else (if (a0 : ℕ) = 0 then -1000000 else -10000000) := by
  unfold util
  rw [bcmDeg_a_vals a0, bcmDeg_a_vals a1, bcmDeg_y_vals s, bcmDeg_r_save,
    bcmDeg_sigma]
  rcases a0 with ⟨n0, h0⟩
  have h0' : n0 < 2 := h0
  rcases a1 with ⟨n1, h1⟩
  have h1' : n1 < 2 := h1
  interval_cases n0 <;> interval_cases n1 <;>
    norm_num [fpow_neg_one]

/-- The fixed point of the degenerate model's Bellman operator
(`beta = 0` makes `T` constant in `v`). -/
def vstarDeg : Fin bcmDeg.Na → Fin bcmDeg.Ns → ℚ :=
  fun a _ => if (a : ℕ) = 0 then -1000000 else -2000000

/-- The (float-valued) argmax array of the degenerate model. -/
def pstarDeg : Fin bcmDeg.Na → Fin bcmDeg.Ns → ℚ :=
  fun a _ => if (a : ℕ) = 0 then 1 else 0

lemma finRange_bcmDeg_Na :
    List.finRange bcmDeg.Na = [⟨0, by decide⟩, ⟨1, by decide⟩] := by decide

lemma finRange_bcmDeg_Ns :
    List.finRange bcmDeg.Ns = [⟨0, by decide⟩, ⟨1, by decide⟩] := by decide

lemma T_bcmDeg (v : Fin bcmDeg.Na → Fin bcmDeg.Ns → ℚ) :
    T bcmDeg.Na bcmDeg.Ns bcmDeg.beta bcmDeg.P v (util bcmDeg) =
      (vstarDeg, pstarDeg) := by
  unfold T
  refine Prod.ext ?_ ?_ <;> funext a s <;>
    rw [finRange_bcmDeg_Na] <;>
    simp only [List.map_cons, List.map_nil, npmax_pair, npargmax_pair,
      utilDeg_eval, bcmDeg_beta, zero_mul, add_zero] <;>
    rcases a with ⟨n, hn⟩ <;>
    have hn2 : n < 2 := hn <;>
    interval_cases n <;>
    norm_num [vstarDeg, pstarDeg, max_def]

lemma supErr_bcmDeg_first :
    supErr bcmDeg.Na bcmDeg.Ns (fun _ _ => 0) vstarDeg = 2000000 := by
  unfold supErr
  rw [finRange_bcmDeg_Na, finRange_bcmDeg_Ns]
  norm_num [vstarDeg, npmax, abs, max_def]

lemma supErr_bcmDeg_second :
    supErr bcmDeg.Na bcmDeg.Ns vstarDeg vstarDeg = 0 := by
  unfold supErr
  rw [finRange_bcmDeg_Na, finRange_bcmDeg_Ns]
  norm_num [vstarDeg, npmax, abs, max_def]

lemma vfiLoop_succ_gt (Na Ns step tol) (fuel : ℕ) (st : LoopState Na Ns)
    (h : tol < st.error) :
    vfiLoop Na Ns step tol (fuel + 1) st =
      vfiLoop Na Ns step tol fuel
        ⟨st.i + 1, supErr Na Ns st.v (step st.v).1, (step st.v).1,
          some (step st.v).2⟩ := by
  rw [vfiLoop, if_pos h]

/-- The full run of `solve_model` on the degenerate model with
`tol = 1e-7`: the loop performs exactly two iterations (the second sees a
zero error because `beta = 0` makes the value function an exact fixed
point after one step) and stops, whatever iteration budget `≥ 2` it is
given. -/
lemma vfiState_bcmDeg (f : ℕ) :
    vfiState bcmDeg (1/10000000) (f + 2) =
      ⟨2, 0, vstarDeg, some pstarDeg⟩ := by
  unfold vfiState
  rw [show f + 2 = f + 1 + 1 from rfl,
    vfiLoop_succ_gt _ _ _ _ _ _ (by norm_num : (1/10000000 : ℚ) < 1000)]
  simp only [T_bcmDeg, supErr_bcmDeg_first]
  rw [vfiLoop_succ_gt _ _ _ _ _ _ (by norm_num : (1/10000000 : ℚ) < 2000000)]
  simp only [T_bcmDeg, supErr_bcmDeg_second]
  exact vfiLoop_not_gt _ _ _ _ _ _ (by norm_num)

/-- C5 counterexample: on the degenerate model with `tol = 1e-7` and
`max_iter = 2` the loop first meets the tolerance exactly at the 2nd
(= `max_iter`-th) iteration, so it exits with `i = max_iter`: the final
sup-norm error meets the tolerance, yet the driver reports "Failed to
converge!" rather than `CONVERGED`.  Hence `CONVERGED` does not hold
"exactly when" the error is `≤ tol`. -/
theorem solve_model_converged_iff_counterexample :
    (solve_model bcmDeg (1/10000000) 2).error ≤ 1/10000000 ∧
      ¬ converged 2 (solve_model bcmDeg (1/10000000) 2) := by
  have h := vfiState_bcmDeg 0
  rw [Nat.zero_add] at h
  constructor
  · rw [solve_model_error, h]
    exact (by norm_num : (0 : ℚ) ≤ 1/10000000)
  · show ¬ (solve_model bcmDeg (1/10000000) 2).iters < 2
    rw [solve_model_iters, h]
    exact (by norm_num : ¬ (2 : ℕ) < 2)

/-!
## Monotonicity of the value function (C7)
-/

lemma npmax_map_le_map {α : Type} (l : List α) (f g : α → ℚ)
    (h : ∀ x ∈ l, f x ≤ g x) : npmax (l.map f) ≤ npmax (l.map g) := by
  induction l with
  | nil => simp [npmax]
  | cons x t ih =>
    cases t with
    | nil => simpa [npmax] using h x (by simp)
    | cons y t' =>
      simp only [List.map_cons] at ih ⊢
      rw [npmax_cons_cons, npmax_cons_cons]
      refine max_le_max (h x (by simp)) ?_
      have := ih fun z hz => h z (List.mem_cons_of_mem _ hz)
      simpa using this

/-- One Bellman application is non-decreasing in the current-asset index
as soon as the utility table is, whatever the value function: the
continuation term is identical across current assets. -/
lemma T_mono_of_u_mono (Na Ns : ℕ) (beta : ℚ) (P : Fin Ns → Fin Ns → ℚ)
    (u : Fin Na → Fin Ns → Fin Na → ℚ)
    (hu : ∀ (s : Fin Ns) (a1 : Fin Na) (i j : Fin Na), i ≤ j →
      u i s a1 ≤ u j s a1)
    (v : Fin Na → Fin Ns → ℚ) (s : Fin Ns) (i j : Fin Na) (hij : i ≤ j) :
    (T Na Ns beta P v u).1 i s ≤ (T Na Ns beta P v u).1 j s := by
  unfold T
  simp only
  apply npmax_map_le_map
  intro a1 _
  have := hu s a1 i j hij
  linarith

lemma vfiLoop_v_mono (Na Ns step tol)
    (hstep : ∀ w (s : Fin Ns) (i j : Fin Na), i ≤ j →
      (step w).1 i s ≤ (step w).1 j s)
    (fuel : ℕ) (st : LoopState Na Ns)
    (hv : ∀ (s : Fin Ns) (i j : Fin Na), i ≤ j → st.v i s ≤ st.v j s) :
    ∀ (s : Fin Ns) (i j : Fin Na), i ≤ j →
      (vfiLoop Na Ns step tol fuel st).v i s ≤
        (vfiLoop Na Ns step tol fuel st).v j s := by
  induction fuel generalizing st with
  | zero => simpa [vfiLoop] using hv
  | succ fuel ih =>
    rw [vfiLoop]
    by_cases h : tol < st.error
    · rw [if_pos h]
      exact ih _ fun s i j hij => hstep st.v s i j hij
    · rwa [if_neg h]

/-- C7 (amended): whenever the tabulated utility is non-decreasing in
the current-asset index, the value array returned by `solve_model`
(started from the zero value function) is non-decreasing in the asset
index for every state — at every iterate, hence in particular at
convergence. -/
theorem value_monotone_of_util_monotone (bcm : BusinessCycleModel)
    (tol : ℚ) (max_iter : ℕ)
    (hu : ∀ (s : Fin bcm.Ns) (a1 : Fin bcm.Na) (i j : Fin bcm.Na), i ≤ j →
      util bcm i s a1 ≤ util bcm j s a1) :
    ∀ (s : Fin bcm.Ns) (i j : Fin bcm.Na), i ≤ j →
      (solve_model bcm tol max_iter).v i s ≤
        (solve_model bcm tol max_iter).v j s := by
  intro s i j hij
  rw [solve_model_v]
  exact vfiLoop_v_mono bcm.Na bcm.Ns _ tol
    (fun w s' i' j' hij' =>
      T_mono_of_u_mono bcm.Na bcm.Ns bcm.beta bcm.P (util bcm) hu w s' i' j' hij')
    max_iter _ (fun _ _ _ _ => le_refl 0) s i j hij

/-- C7 counterexample: the degenerate model runs to `CONVERGED` (2
iterations, final error 0, cap 5) yet its converged value function is
strictly decreasing in the asset index: the barely-feasible consumption
at the higher asset level has CRRA utility `-2e6`, below the
infeasibility sentinel `-1e6` that the lower asset level inherits. -/
theorem value_monotone_counterexample :
    converged 5 (solve_model bcmDeg (1/10000000) 5) ∧
    ∃ (s : Fin bcmDeg.Ns) (i j : Fin bcmDeg.Na), i ≤ j ∧
      (solve_model bcmDeg (1/10000000) 5).v j s <
        (solve_model bcmDeg (1/10000000) 5).v i s := by
  have h := vfiState_bcmDeg 3
  have h5 : (3 : ℕ) + 2 = 5 := rfl
  rw [h5] at h
  constructor
  · show (solve_model bcmDeg (1/10000000) 5).iters < 5
    rw [solve_model_iters, h]
    exact (by norm_num : (2 : ℕ) < 5)
  · refine ⟨⟨0, by decide⟩, ⟨0, by decide⟩, ⟨1, by decide⟩, by decide, ?_⟩
    rw [solve_model_v, h]
    show vstarDeg ⟨1, by decide⟩ ⟨0, by decide⟩ < vstarDeg ⟨0, by decide⟩ ⟨0, by decide⟩
    norm_num [vstarDeg]

/-- A small well-behaved configuration (incomes `y = theta = 5`, grid
`linspace(0, 1, 2)`, `sigma = 2`, `r_save = 0`): every consumption value
is at least 4, so the utility table is monotone in current assets. -/
def bcmMono : BusinessCycleModel :=
  BusinessCycleModel.init 6 0 (2/25) 5 5 (995/1000) 2 false 1 0 2

lemma bcmMono_a_vals (i : Fin bcmMono.Na) : bcmMono.a_vals i = (i : ℚ) := by
  show linspace 0 1 2 i = (i : ℚ)
  unfold linspace
  norm_num

lemma bcmMono_y_vals (s : Fin bcmMono.Ns) : bcmMono.y_vals s = 5 := by
  show (yList 5 5 2).getD (s : ℕ) 0 = 5
  rw [yList_two]
  rcases s with ⟨n, hn⟩
  have h2 : n < 2 := hn
  interval_cases n <;> rfl

lemma bcmMono_r_save : bcmMono.r_save = 0 := rfl

lemma bcmMono_sigma : bcmMono.sigma = 2 := rfl

lemma utilMono_eval (a0 : Fin bcmMono.Na) (s : Fin bcmMono.Ns) (a1 : Fin bcmMono.Na) :
    util bcmMono a0 s a1 =
      if (a0 : ℕ) = 0 then (if (a1 : ℕ) = 0 then -(1/5) else -(1/4))
      else (if (a1 : ℕ) = 0 then -(1/6) else -(1/5)) := by
  unfold util
  rw [bcmMono_a_vals a0, bcmMono_a_vals a1, bcmMono_y_vals s, bcmMono_r_save,
    bcmMono_sigma]
  rcases a0 with ⟨n0, h0⟩
  have h0' : n0 < 2 := h0
  rcases a1 with ⟨n1, h1⟩
  have h1' : n1 < 2 := h1
  interval_cases n0 <;> interval_cases n1 <;> norm_num [fpow_neg_one]

lemma utilMono_monotone :
    ∀ (s : Fin bcmMono.Ns) (a1 : Fin bcmMono.Na) (i j : Fin bcmMono.Na),
      i ≤ j → util bcmMono i s a1 ≤ util bcmMono j s a1 := by
  intro s a1 i j hij
  rcases i with ⟨ni, hi⟩
  rcases j with ⟨nj, hj⟩
  have hi' : ni < 2 := hi
  have hj' : nj < 2 := hj
  rw [Fin.mk_le_mk] at hij
  rcases a1 with ⟨n1, ha1⟩
  have ha1' : n1 < 2 := ha1
  interval_cases ni <;> interval_cases nj <;>
    first
      | omega
      | (interval_cases n1 <;> norm_num [utilMono_eval])

/-- Closed witness for `value_monotone_of_util_monotone`: on `bcmMono`
the returned value function is indeed ordered at the two grid points. -/
theorem value_monotone_of_util_monotone_witness :
    (solve_model bcmMono (1/10000000) 5).v ⟨0, by decide⟩ ⟨0, by decide⟩ ≤
      (solve_model bcmMono (1/10000000) 5).v ⟨1, by decide⟩ ⟨0, by decide⟩ :=
  value_monotone_of_util_monotone bcmMono (1/10000000) 5 utilMono_monotone
    ⟨0, by decide⟩ ⟨0, by decide⟩ ⟨1, by decide⟩ (by decide)

/-!
## Returned policy representation (C9)
-/

/-- C9: the `astype(int)` conversion is applied exactly when the loop
exits with `i < max_iter`; in either case the policy array wrapped in
the result is the raw float-valued `np.argmax` output of the last
Bellman application (every entry a grid index `< Na` stored as a float),
returned unconverted (`Sum.inl`) when the iteration cap was reached and
truncated to integers (`Sum.inr`) otherwise. -/
theorem policy_astype_iff (bcm : BusinessCycleModel) (tol : ℚ) (max_iter : ℕ)
    (h1 : 1 ≤ max_iter) (h2 : tol < 1000) :
    ∃ (praw : Fin bcm.Na → Fin bcm.Ns → ℚ) (w : Fin bcm.Na → Fin bcm.Ns → ℚ),
      praw = (T bcm.Na bcm.Ns bcm.beta bcm.P w (util bcm)).2 ∧
      (∀ (a : Fin bcm.Na) (s : Fin bcm.Ns),
        ∃ k : ℕ, k < bcm.Na ∧ praw a s = (k : ℚ)) ∧
      (solve_model bcm tol max_iter).policy =
        some (if (solve_model bcm tol max_iter).iters < max_iter
          then Sum.inr fun a s => astypeInt (praw a s)
          else Sum.inl praw) := by
  rcases vfiState_stepForm bcm tol max_iter h1 h2 with ⟨w, _, _, hp⟩
  refine ⟨(T bcm.Na bcm.Ns bcm.beta bcm.P w (util bcm)).2, w, rfl, ?_, ?_⟩
  · intro a s
    refine ⟨npargmax ((List.finRange bcm.Na).map fun a1 =>
      util bcm a s a1 + bcm.beta * ∑ s1, bcm.P s s1 * w a1 s1), ?_, rfl⟩
    have hne : ((List.finRange bcm.Na).map fun a1 =>
        util bcm a s a1 + bcm.beta * ∑ s1, bcm.P s s1 * w a1 s1) ≠ [] := by
      have : 0 < bcm.Na := a.pos
      intro hc
      have := congrArg List.length hc
      simp at this
      omega
    have := npargmax_lt_length _ hne
    simpa using this
  · rw [solve_model_iters, solve_model_policy]
    by_cases hlt : (vfiState bcm tol max_iter).i < max_iter
    · rw [if_pos hlt, if_pos hlt, hp]
      rfl
    · rw [if_neg hlt, if_neg hlt, hp]
      rfl

/-- Closed witness for `policy_astype_iff` at a concrete input. -/
theorem policy_astype_iff_witness :
    ∃ (praw : Fin bcmDeg.Na → Fin bcmDeg.Ns → ℚ)
      (w : Fin bcmDeg.Na → Fin bcmDeg.Ns → ℚ),
      praw = (T bcmDeg.Na bcmDeg.Ns bcmDeg.beta bcmDeg.P w (util bcmDeg)).2 ∧
      (∀ (a : Fin bcmDeg.Na) (s : Fin bcmDeg.Ns),
        ∃ k : ℕ, k < bcmDeg.Na ∧ praw a s = (k : ℚ)) ∧
      (solve_model bcmDeg (1/10000000) 1).policy =
        some (if (solve_model bcmDeg (1/10000000) 1).iters < 1
          then Sum.inr fun a s => astypeInt (praw a s)
          else Sum.inl praw) :=
  policy_astype_iff bcmDeg (1/10000000) 1 (by norm_num) (by norm_num)

/-!
## Utility branch structure (C2, C8)
-/

/-- C2: for every index triple the tabulator computes
`c = a_vals[a0] + y_vals[s] - a_vals[a1]/(1+r_save)`; infeasible
consumption (`c < 0`) receives the sentinel `-1e6` (never a failure),
feasible consumption (`c ≥ 0`) the CRRA value `c**(1-sigma)/(1-sigma)`;
and with `r_save = 0` every triple with
`a_vals[a0] + y_vals[s] < a_vals[a1]` receives the sentinel. -/
theorem util_branches_spec (bcm : BusinessCycleModel)
    (a0 : Fin bcm.Na) (s : Fin bcm.Ns) (a1 : Fin bcm.Na) :
    (bcm.a_vals a0 + bcm.y_vals s - bcm.a_vals a1 / (1 + bcm.r_save) < 0 →
      util bcm a0 s a1 = -1000000) ∧
    (0 ≤ bcm.a_vals a0 + bcm.y_vals s - bcm.a_vals a1 / (1 + bcm.r_save) →
      util bcm a0 s a1 =
        fpow (bcm.a_vals a0 + bcm.y_vals s - bcm.a_vals a1 / (1 + bcm.r_save))
          (1 - bcm.sigma) / (1 - bcm.sigma)) ∧
    (bcm.r_save = 0 → bcm.a_vals a0 + bcm.y_vals s < bcm.a_vals a1 →
      util bcm a0 s a1 = -1000000) := by
  refine ⟨?_, ?_, ?_⟩
  · intro h
    simp only [util]
    rw [if_pos h]
  · intro h
    simp only [util]
    rw [if_neg (not_lt.mpr h)]
  · intro hr h
    simp only [util, hr]
    rw [if_pos (by rw [add_zero, div_one]; linarith)]

/-- Closed witness for `util_branches_spec`: in the degenerate model
(`r_save = 0`) the triple `(0, 0, 1)` violates the budget constraint and
receives the sentinel. -/
theorem util_branches_spec_witness :
    util bcmDeg ⟨0, by decide⟩ ⟨0, by decide⟩ ⟨1, by decide⟩ = -1000000 :=
  (util_branches_spec bcmDeg ⟨0, by decide⟩ ⟨0, by decide⟩ ⟨1, by decide⟩).2.2
    bcmDeg_r_save
    (by
      rw [bcmDeg_a_vals, bcmDeg_a_vals, bcmDeg_y_vals]
      show (0 : ℚ) * (4/10000000) + 1/10000000 < (1 : ℚ) * (4/10000000)
      norm_num)

/-- C8: the tabulator applies the CRRA formula with no special case for
`sigma = 1`; under the precondition `sigma ≠ 1` the divisor `1 - sigma`
is nonzero, so on the feasible branch the division is never a division
by zero. -/
theorem util_no_div_zero (bcm : BusinessCycleModel)
    (a0 : Fin bcm.Na) (s : Fin bcm.Ns) (a1 : Fin bcm.Na)
    (hs : bcm.sigma ≠ 1) :
    1 - bcm.sigma ≠ 0 ∧
    (0 ≤ bcm.a_vals a0 + bcm.y_vals s - bcm.a_vals a1 / (1 + bcm.r_save) →
      util bcm a0 s a1 =
        fpow (bcm.a_vals a0 + bcm.y_vals s - bcm.a_vals a1 / (1 + bcm.r_save))
          (1 - bcm.sigma) / (1 - bcm.sigma)) := by
  refine ⟨sub_ne_zero.mpr (Ne.symm hs), ?_⟩
  intro h
  simp only [util]
  rw [if_neg (not_lt.mpr h)]

/-- Closed witness for `util_no_div_zero` at a concrete input
(`bcmDeg` has `sigma = 2 ≠ 1`). -/
theorem util_no_div_zero_witness :
    1 - bcmDeg.sigma ≠ 0 ∧
    (0 ≤ bcmDeg.a_vals ⟨1, by decide⟩ + bcmDeg.y_vals ⟨0, by decide⟩ -
        bcmDeg.a_vals ⟨1, by decide⟩ / (1 + bcmDeg.r_save) →
      util bcmDeg ⟨1, by decide⟩ ⟨0, by decide⟩ ⟨1, by decide⟩ =
        fpow (bcmDeg.a_vals ⟨1, by decide⟩ + bcmDeg.y_vals ⟨0, by decide⟩ -
            bcmDeg.a_vals ⟨1, by decide⟩ / (1 + bcmDeg.r_save))
          (1 - bcmDeg.sigma) / (1 - bcmDeg.sigma)) :=
  util_no_div_zero bcmDeg ⟨1, by decide⟩ ⟨0, by decide⟩ ⟨1, by decide⟩
    (by rw [bcmDeg_sigma]; norm_num)

/-!
## Stationary Distribution Solver (`solve_invariant_dist`)
-/

/-- The initial distribution of `solve_invariant_dist`:
`np.ones_like(policy) * (1/(Na*Ns))`. -/
def init_pmf (Na Ns : ℕ) : Fin Na → Fin Ns → ℚ :=
  fun _ _ => 1 * (1 / ((Na : ℚ) * (Ns : ℚ)))

/-- One in-place accumulation `pmf_new[a,s] += x`. -/
def addAt (Na Ns : ℕ) (g : Fin Na → Fin Ns → ℚ) (a : Fin Na) (s : Fin Ns)
    (x : ℚ) : Fin Na → Fin Ns → ℚ :=
  fun a' s' => if a' = a ∧ s' = s then g a' s' + x else g a' s'

/-- Shallow embedding of `dist_iter` from `solve_invariant_dist`:
starting from an all-zero `pmf_new`, for every source cell `(a0, s0)`
and every next state `s1` it accumulates `P[s0,s1] * pmf[a0,s0]` into
`pmf_new[a1, s1]` where `a1 = policy[a0, s0]`. -/
def dist_iter (Na Ns : ℕ) (P : Fin Ns → Fin Ns → ℚ)
    (policy : Fin Na → Fin Ns → Fin Na) (pmf : Fin Na → Fin Ns → ℚ) :
    Fin Na → Fin Ns → ℚ :=
  (List.finRange Na).foldl
    (fun acc a0 =>
      (List.finRange Ns).foldl
        (fun acc s0 =>
          (List.finRange Ns).foldl
            (fun acc s1 =>
              addAt Na Ns acc (policy a0 s0) s1 (P s0 s1 * pmf a0 s0))
            acc)
        acc)
    (fun _ _ => 0)

lemma addAt_apply (Na Ns : ℕ) (g : Fin Na → Fin Ns → ℚ) (b : Fin Na)
    (t : Fin Ns) (x : ℚ) (a : Fin Na) (s : Fin Ns) :
    addAt Na Ns g b t x a s = g a s + (if a = b ∧ s = t then x else 0) := by
  unfold addAt
  by_cases h : a = b ∧ s = t
  · rw [if_pos h, if_pos h]
  · rw [if_neg h, if_neg h, add_zero]

/-- A left fold of pointwise-additive updates adds, at every cell, the
sum of the per-element contributions. -/
lemma foldl_additive {α : Type} (Na Ns : ℕ) (l : List α)
    (F : (Fin Na → Fin Ns → ℚ) → α → (Fin Na → Fin Ns → ℚ))
    (contrib : α → Fin Na → Fin Ns → ℚ)
    (hF : ∀ g x a s, F g x a s = g a s + contrib x a s)
    (g : Fin Na → Fin Ns → ℚ) (a : Fin Na) (s : Fin Ns) :
    (l.foldl F g) a s = g a s + (l.map fun x => contrib x a s).sum := by
  induction l generalizing g with
  | nil => simp
  | cons x t ih =>
    simp only [List.foldl_cons, List.map_cons, List.sum_cons]
    rw [ih, hF]
    ring

lemma dist_inner_apply (Na Ns : ℕ) (P : Fin Ns → Fin Ns → ℚ)
    (policy : Fin Na → Fin Ns → Fin Na) (pmf : Fin Na → Fin Ns → ℚ)
    (a0 : Fin Na) (s0 : Fin Ns) (acc : Fin Na → Fin Ns → ℚ)
    (a : Fin Na) (s : Fin Ns) :
    ((List.finRange Ns).foldl
        (fun acc s1 => addAt Na Ns acc (policy a0 s0) s1 (P s0 s1 * pmf a0 s0))
        acc) a s =
      acc a s + (if policy a0 s0 = a then P s0 s * pmf a0 s0 else 0) := by
  rw [foldl_additive Na Ns _ _
    (fun s1 a s => if a = policy a0 s0 ∧ s = s1 then P s0 s1 * pmf a0 s0 else 0)
    (fun g x a s => addAt_apply Na Ns g (policy a0 s0) x (P s0 x * pmf a0 s0) a s)]
  congr 1
  rw [(Fin.sum_univ_def fun s1 =>
    if a = policy a0 s0 ∧ s = s1 then P s0 s1 * pmf a0 s0 else 0).symm]
  by_cases hab : a = policy a0 s0
  · subst hab
    simp only [true_and]
    rw [Finset.sum_ite_eq]
    simp
  · rw [if_neg fun hc => hab hc.symm]
    apply Finset.sum_eq_zero
    intro s1 _
    rw [if_neg fun hc => hab hc.1]

lemma dist_middle_apply (Na Ns : ℕ) (P : Fin Ns → Fin Ns → ℚ)
    (policy : Fin Na → Fin Ns → Fin Na) (pmf : Fin Na → Fin Ns → ℚ)
    (a0 : Fin Na) (acc : Fin Na → Fin Ns → ℚ) (a : Fin Na) (s : Fin Ns) :
    ((List.finRange Ns).foldl
        (fun acc s0 =>
          (List.finRange Ns).foldl
            (fun acc s1 =>
              addAt Na Ns acc (policy a0 s0) s1 (P s0 s1 * pmf a0 s0))
            acc)
        acc) a s =
      acc a s +
        ∑ s0 : Fin Ns, (if policy a0 s0 = a then P s0 s * pmf a0 s0 else 0) := by
  rw [foldl_additive Na Ns _ _
    (fun s0 a s => if policy a0 s0 = a then P s0 s * pmf a0 s0 else 0)
    (fun g s0 a s => dist_inner_apply Na Ns P policy pmf a0 s0 g a s)]
  simp [Fin.sum_univ_def]

/-- The scatter-add loop of `dist_iter`, expressed as a gather: the new
mass at `(a1, s1)` is the sum of `P[s0,s1] * pmf[a0,s0]` over all source
cells whose policy sends them to `a1`. -/
lemma dist_iter_apply (Na Ns : ℕ) (P : Fin Ns → Fin Ns → ℚ)
    (policy : Fin Na → Fin Ns → Fin Na) (pmf : Fin Na → Fin Ns → ℚ)
    (a1 : Fin Na) (s1 : Fin Ns) :
    dist_iter Na Ns P policy pmf a1 s1 =
      ∑ a0 : Fin Na, ∑ s0 : Fin Ns,
        (if policy a0 s0 = a1 then P s0 s1 * pmf a0 s0 else 0) := by
  unfold dist_iter
  rw [foldl_additive Na Ns _ _
    (fun a0 a s => ∑ s0 : Fin Ns,
      (if policy a0 s0 = a then P s0 s * pmf a0 s0 else 0))
    (fun g a0 a s => dist_middle_apply Na Ns P policy pmf a0 g a s)]
  simp [Fin.sum_univ_def]

/-- C3: the stationary-distribution solver starts from the uniform
distribution with mass `1/(Na·Ns)` in every cell, and one application of
`dist_iter` is exactly the push-forward: the new mass at `(a1, s1)`
collects `P[s0,s1] * pmf[a0,s0]` from every source cell `(a0, s0)` with
`policy[a0,s0] = a1`. -/
theorem dist_iter_pushforward_spec (Na Ns : ℕ) (P : Fin Ns → Fin Ns → ℚ)
    (policy : Fin Na → Fin Ns → Fin Na) (pmf : Fin Na → Fin Ns → ℚ) :
    (∀ (a : Fin Na) (s : Fin Ns),
      init_pmf Na Ns a s = 1 / ((Na : ℚ) * (Ns : ℚ))) ∧
    ∀ (a1 : Fin Na) (s1 : Fin Ns),
      dist_iter Na Ns P policy pmf a1 s1 =
        ∑ a0 : Fin Na, ∑ s0 : Fin Ns,
          (if policy a0 s0 = a1 then P s0 s1 * pmf a0 s0 else 0) :=
  ⟨fun _ _ => one_mul _, dist_iter_apply Na Ns P policy pmf⟩

/-- C4: one `dist_iter` update preserves nonnegativity and total mass:
if `pmf` is entrywise nonnegative with total mass 1, and `P` is
entrywise nonnegative with rows summing to 1, then the updated
distribution is entrywise nonnegative and sums to exactly 1. -/
theorem dist_iter_conservation (Na Ns : ℕ) (P : Fin Ns → Fin Ns → ℚ)
    (policy : Fin Na → Fin Ns → Fin Na) (pmf : Fin Na → Fin Ns → ℚ)
    (hpmf : ∀ (a : Fin Na) (s : Fin Ns), 0 ≤ pmf a s)
    (hsum : (∑ a : Fin Na, ∑ s : Fin Ns, pmf a s) = 1)
    (hP : ∀ (s0 s1 : Fin Ns), 0 ≤ P s0 s1)
    (hProws : ∀ s0 : Fin Ns, (∑ s1 : Fin Ns, P s0 s1) = 1) :
    (∀ (a : Fin Na) (s : Fin Ns), 0 ≤ dist_iter Na Ns P policy pmf a s) ∧
    (∑ a : Fin Na, ∑ s : Fin Ns, dist_iter Na Ns P policy pmf a s) = 1 := by
  constructor
  · intro a s
    rw [dist_iter_apply]
    apply Finset.sum_nonneg
    intro a0 _
    apply Finset.sum_nonneg
    intro s0 _
    by_cases h : policy a0 s0 = a
    · rw [if_pos h]
      exact mul_nonneg (hP s0 s) (hpmf a0 s0)
    · rw [if_neg h]
  · have key : ∀ (a0 : Fin Na) (s0 : Fin Ns),
        (∑ a1 : Fin Na, ∑ s1 : Fin Ns,
          if policy a0 s0 = a1 then P s0 s1 * pmf a0 s0 else 0) =
          pmf a0 s0 := by
      intro a0 s0
      calc (∑ a1 : Fin Na, ∑ s1 : Fin Ns,
              if policy a0 s0 = a1 then P s0 s1 * pmf a0 s0 else 0)
          = ∑ a1 : Fin Na,
              (if policy a0 s0 = a1
                then ∑ s1 : Fin Ns, P s0 s1 * pmf a0 s0 else 0) := by
            apply Finset.sum_congr rfl
            intro a1 _
            by_cases h : policy a0 s0 = a1 <;> simp [h]
        _ = ∑ s1 : Fin Ns, P s0 s1 * pmf a0 s0 := by
            rw [Finset.sum_ite_eq]
            simp
        _ = (∑ s1 : Fin Ns, P s0 s1) * pmf a0 s0 := by
            rw [Finset.sum_mul]
        _ = pmf a0 s0 := by rw [hProws s0, one_mul]
    calc (∑ a1 : Fin Na, ∑ s1 : Fin Ns, dist_iter Na Ns P policy pmf a1 s1)
        = ∑ a1 : Fin Na, ∑ s1 : Fin Ns, ∑ a0 : Fin Na, ∑ s0 : Fin Ns,
            (if policy a0 s0 = a1 then P s0 s1 * pmf a0 s0 else 0) := by
          apply Finset.sum_congr rfl
          intro a1 _
          apply Finset.sum_congr rfl
          intro s1 _
          exact dist_iter_apply Na Ns P policy pmf a1 s1
      _ = ∑ a0 : Fin Na, ∑ s0 : Fin Ns, ∑ a1 : Fin Na, ∑ s1 : Fin Ns,
            (if policy a0 s0 = a1 then P s0 s1 * pmf a0 s0 else 0) := by
          have := Finset.sum_comm
            (s := (Finset.univ : Finset (Fin Na × Fin Ns)))
            (t := (Finset.univ : Finset (Fin Na × Fin Ns)))
            (f := fun p q =>
              if policy q.1 q.2 = p.1 then P q.2 p.2 * pmf q.1 q.2 else 0)
          simpa [Fintype.sum_prod_type] using this
      _ = ∑ a0 : Fin Na, ∑ s0 : Fin Ns, pmf a0 s0 := by
          apply Finset.sum_congr rfl
          intro a0 _
          apply Finset.sum_congr rfl
          intro s0 _
          exact key a0 s0
      _ = 1 := hsum

/-- Closed witness for `dist_iter_conservation` on a one-cell state
space with the trivial kernel and policy. -/
theorem dist_iter_conservation_witness :
    (∀ (a : Fin 1) (s : Fin 1),
      0 ≤ dist_iter 1 1 (fun _ _ => 1) (fun _ _ => ⟨0, Nat.one_pos⟩)
        (fun _ _ => 1) a s) ∧
    (∑ a : Fin 1, ∑ s : Fin 1,
      dist_iter 1 1 (fun _ _ => 1) (fun _ _ => ⟨0, Nat.one_pos⟩)
        (fun _ _ => 1) a s) = 1 :=
  dist_iter_conservation 1 1 (fun _ _ => 1) (fun _ _ => ⟨0, Nat.one_pos⟩)
    (fun _ _ => 1) (fun _ _ => by norm_num) (by simp)
    (fun _ _ => by norm_num) (fun _ => by simp)

/-!
## Constructor behaviour (C6, C10)
-/

/-- C6 (amended): model construction performs no validation and never
raises: every configuration — including `Na < 2` or `a_max ≤ a_min` —
yields a fully-formed model whose fields simply store the arguments;
the transition matrix cannot be non-row-stochastic because it is
hard-coded to one of two fixed matrices, each of whose rows sums to
exactly 1. -/
theorem init_rows_stochastic (period r_save r_borrow y theta beta sigma : ℚ)
    (bc : Bool) (a_max a_min : ℚ) (Na : ℕ) :
    (BusinessCycleModel.init period r_save r_borrow y theta beta sigma bc
      a_max a_min Na).Na = Na ∧
    (BusinessCycleModel.init period r_save r_borrow y theta beta sigma bc
      a_max a_min Na).a_max = a_max ∧
    (BusinessCycleModel.init period r_save r_borrow y theta beta sigma bc
      a_max a_min Na).a_min = a_min ∧
    ∀ s, (∑ s1, (BusinessCycleModel.init period r_save r_borrow y theta beta
      sigma bc a_max a_min Na).P s s1) = 1 := by
  cases bc
  · refine ⟨rfl, rfl, rfl, ?_⟩
    show ∀ s : Fin 2, (∑ s1 : Fin 2, P2 s s1) = 1
    intro s
    fin_cases s <;>
      simp [P2, Fin.sum_univ_two] <;> norm_num
  · refine ⟨rfl, rfl, rfl, ?_⟩
    show ∀ s : Fin 4, (∑ s1 : Fin 4, P4 s s1) = 1
    intro s
    fin_cases s <;>
      simp [P4, Fin.sum_univ_four] <;> norm_num

/-- C6 counterexample: constructing a model with `Na = 1 (< 2)` and
`a_max = 0 ≤ a_min = 5` does not fail: `__init__` contains no validation
(no `ConfigurationError` exists anywhere in the program), and the
constructor returns a fully-formed model with the degenerate one-point
grid `[a_min]`. -/
theorem init_no_validation_counterexample :
    (BusinessCycleModel.init 6 0 (2/25) 1 (1/4) (995/1000) (31/5) true
      0 5 1).Na = 1 ∧
    (BusinessCycleModel.init 6 0 (2/25) 1 (1/4) (995/1000) (31/5) true
      0 5 1).a_min = 5 ∧
    (BusinessCycleModel.init 6 0 (2/25) 1 (1/4) (995/1000) (31/5) true
      0 5 1).a_max = 0 ∧
    ∀ i, (BusinessCycleModel.init 6 0 (2/25) 1 (1/4) (995/1000) (31/5) true
      0 5 1).a_vals i = 5 := by
  refine ⟨rfl, rfl, rfl, ?_⟩
  intro i
  show linspace 5 0 1 i = 5
  unfold linspace
  rcases i with ⟨n, hn⟩
  have hn1 : n < 1 := hn
  have hn0 : n = 0 := by omega
  subst hn0
  norm_num

/-- C10: for both process variants (`business_cycle` true: `Ns = 4`;
false: `Ns = 2`) the income list `[y, theta] * int(Ns/2)` has length
`Ns`, and the income of every even state index is `y` (employed) while
every odd state index receives `theta` (unemployed). -/
theorem y_vals_parity (period r_save r_borrow y theta beta sigma : ℚ)
    (bc : Bool) (a_max a_min : ℚ) (Na : ℕ) :
    (yList y theta (BusinessCycleModel.init period r_save r_borrow y theta
      beta sigma bc a_max a_min Na).Ns).length =
      (BusinessCycleModel.init period r_save r_borrow y theta beta sigma bc
        a_max a_min Na).Ns ∧
    ∀ s, (BusinessCycleModel.init period r_save r_borrow y theta beta sigma
      bc a_max a_min Na).y_vals s =
        if (s : ℕ) % 2 = 0 then y else theta := by
  cases bc
  · constructor
    · show (yList y theta 2).length = 2
      rfl
    show ∀ s : Fin 2, (yList y theta 2).getD (s : ℕ) 0 = _
    intro s
    rw [yList_two]
    rcases s with ⟨n, hn⟩
    have hn2 : n < 2 := hn
    interval_cases n <;> simp
  · constructor
    · show (yList y theta 4).length = 4
      rfl
    show ∀ s : Fin 4, (yList y theta 4).getD (s : ℕ) 0 = _
    intro s
    have h4 : yList y theta 4 = [y, theta, y, theta] := rfl
    rw [h4]
    rcases s with ⟨n, hn⟩
    have hn4 : n < 4 := hn
    interval_cases n <;> simp
